import Mathlib

/-!
Verification of the turn-selection and context-aggregation core of the
repository (files `controlflow/agents/teams.py` and
`controlflow/orchestration/agent_context.py`), via a shallow embedding.

Python objects become Lean structures; methods that mutate `self` become
state-passing functions returning the updated structure; external side
effects (handler calls, event-log writes) are reified as an explicit
effect trace.  External collaborators that live outside the two embedded
files (the event-log query, event association helpers, the content hash,
template rendering) are modelled from the spec, each marked in its doc
comment.
-/

set_option linter.unusedVariables false

namespace CF

/-- An agent: a stable content-derived identity plus the metadata fields
that participate in identity derivation.  (`controlflow/agents/agent.py`,
external to the embedded files; only identity and field equality matter
here.) -/
structure Agent where
  id : String
  name : String
  description : Option String
  prompt : Option String
  instructions : Option String
deriving DecidableEq, Inhabited, Repr

/-- Payload of a tool-result event, carrying the flag that signals whether
the tool call concludes the acting agent's turn. -/
structure ToolResult where
  end_turn : Bool
deriving DecidableEq, Inhabited, Repr

/-- A task; only identity matters to the embedded code. -/
structure Task where
  id : Nat
deriving DecidableEq, Inhabited, Repr

/-- A tool; only identity matters to the embedded code. -/
structure Tool where
  id : Nat
deriving DecidableEq, Inhabited, Repr

/-- A side-effect handler; only identity matters to the embedded code (the
call to `handler.handle(event)` is reified as an effect). -/
structure Handler where
  id : Nat
deriving DecidableEq, Inhabited, Repr

/-- An event record: a discriminated kind (`event`), the owning agent, the
kind-specific tool-result payload when present, the event's own persistence
preference, and the mutable routing metadata stamped by
`AgentContext.handle_event` (thread id, associated task ids, associated
agent ids). -/
structure Event where
  event : String
  agent : Agent
  tool_result : Option ToolResult
  persist : Bool
  thread_id : Option String
  task_ids : List Nat
  agent_ids : List String
deriving DecidableEq, Inhabited, Repr

/-- The flow holds the run's thread id and the append-only event log
(oldest first).  (`controlflow/flows`, external to the embedded files.) -/
structure Flow where
  thread_id : String
  events : List Event
deriving DecidableEq, Inhabited, Repr

/-- Modelled from the spec: the EventLog read API
`get_events(agents?, tasks?, kinds?, limit?)` (implemented on `Flow`,
outside the embedded files) returns events owned by one of the given
agents, scoped to the given tasks, restricted to the given kinds, ordered
newest first and truncated to `limit`. -/
def Flow.get_events (flow : Flow) (agents : List Agent) (tasks : List Task)
    (types : List String) (limit : Nat) : List Event :=
  ((flow.events.filter (fun e =>
      decide (e.agent ∈ agents) &&
      e.task_ids.any (fun t => tasks.any (fun tk => tk.id == t)) &&
      decide (e.event ∈ types))).reverse).take limit

/-- Team (`controlflow/agents/teams.py`): an agent that owns an ordered
list of member agents and a private monotonic turn counter
(`_iterations`). -/
structure Team where
  name : String
  description : Option String
  prompt : Option String
  instructions : Option String
  agents : List Agent
  iterations : Nat
deriving DecidableEq, Inhabited, Repr

/-- The run context (`AgentContext` in
`controlflow/orchestration/agent_context.py`): flow reference, active
tasks, tools, participating agents, handlers and accumulated
instructions. -/
structure AgentContext where
  flow : Flow
  tasks : List Task
  tools : List Tool
  agents : List Agent
  handlers : List Handler
  instructions : List String
deriving DecidableEq, Inhabited, Repr

/-- `Team.validate_agents`: the `agents` field validator raises when the
member list is empty (`if not v: raise ValueError(...)`) and passes the
list through otherwise. -/
def validate_agents (v : List Agent) : Except String (List Agent) :=
  if v.isEmpty then
    Except.error "A team must have at least one agent."
  else
    Except.ok v

/-- Team construction: pydantic runs `validate_agents` on the `agents`
field before the model is built, so construction fails exactly when the
validator raises; the turn counter starts at 0. -/
def mkTeam (name : String) (description : Option String)
    (prompt : Option String) (instructions : Option String)
    (agents : List Agent) : Except String Team :=
  match validate_agents agents with
  | Except.error e => Except.error e
  | Except.ok v =>
      Except.ok { name := name, description := description, prompt := prompt,
                  instructions := instructions, agents := v, iterations := 0 }

/-- The ordered tuple of semantic fields that `Team._generate_id` hashes:
the type name, name, description, prompt, instructions, and the member
ids, in that order. -/
structure HashInput where
  type_name : String
  name : String
  description : Option String
  prompt : Option String
  instructions : Option String
  agent_ids : List String
deriving DecidableEq, Inhabited, Repr

/-- Modelled from the spec: `hash_objects`
(`controlflow/utilities/general.py`, outside the embedded files) is a
deterministic, content-derived digest of the ordered tuple of fields; the
spec treats distinct field tuples as yielding distinct identifiers, so the
digest is modelled abstractly as the tuple itself. -/
def hash_objects (x : HashInput) : HashInput := x

/-- `Team._generate_id`: hashes the tuple
(type name, name, description, prompt, instructions, member ids). -/
def Team.generate_id (team : Team) : HashInput :=
  hash_objects
    { type_name := "Team", name := team.name, description := team.description,
      prompt := team.prompt, instructions := team.instructions,
      agent_ids := team.agents.map Agent.id }

/-- The event query issued at the top of `Team.get_agent`:
`context.flow.get_events(agents=self.agents, tasks=context.tasks,
types=["tool-result", "agent-message"], limit=1)`. -/
def Team.last_agent_event (team : Team) (context : AgentContext) : List Event :=
  context.flow.get_events team.agents context.tasks
    ["tool-result", "agent-message"] 1

/-- The continuation test in `Team.get_agent`:
`last_agent_event and last_agent_event[0].event == "tool-result" and not
last_agent_event[0].tool_result.end_turn`. -/
def Event.is_continuation (e : Event) : Bool :=
  e.event == "tool-result" && !((e.tool_result.map ToolResult.end_turn).getD true)

/-- The rotation tail of `Team.get_agent`:
`agent = self.agents[self._iterations % len(self.agents)];
self._iterations += 1; return agent`.  (Indexing via `getD` with a default
value; the empty list, on which Python would raise, is unreachable by the
non-empty-team invariant.) -/
def Team.rotate (team : Team) : Agent × Team :=
  let agent := team.agents.getD (team.iterations % team.agents.length) default
  (agent, { team with iterations := team.iterations + 1 })

/-- `Team.get_agent`: if the most recent relevant event is a tool-result
whose `end_turn` flag is false, return its owning agent with the counter
untouched; otherwise rotate. -/
def Team.get_agent (team : Team) (context : AgentContext) : Agent × Team :=
  match (team.last_agent_event context).head? with
  | some e => if e.is_continuation then (e.agent, team) else team.rotate
  | none => team.rotate

/-- Whether the continuation branch of `Team.get_agent` fires for this
team and context. -/
def Team.holds_continuation (team : Team) (context : AgentContext) : Bool :=
  match (team.last_agent_event context).head? with
  | some e => e.is_continuation
  | none => false

/-- `n` consecutive calls to `Team.get_agent` against a fixed context,
returning the selected agents in call order and the final team state. -/
def rotate_calls : Nat → Team → AgentContext → List Agent × Team
  | 0, team, _ => ([], team)
  | Nat.succ n, team, context =>
      let r := team.get_agent context
      let rest := rotate_calls n r.2 context
      (r.1 :: rest.1, rest.2)

example : validate_agents [] = Except.error "A team must have at least one agent." := rfl

/-- `AgentContext.add_agent`:
`if agent not in self.agents: self.agents = self.agents + [agent]`. -/
def AgentContext.add_agent (c : AgentContext) (agent : Agent) : AgentContext :=
  if agent ∈ c.agents then c else { c with agents := c.agents ++ [agent] }

/-- Modelled from the spec: `Event.add_tasks` (`controlflow/events/base.py`,
outside the embedded files) associates the event with each given task. -/
def Event.add_tasks (e : Event) (tasks : List Task) : Event :=
  { e with task_ids := e.task_ids ++ tasks.map Task.id }

/-- Modelled from the spec: `Event.add_agents`
(`controlflow/events/base.py`, outside the embedded files) associates the
event with each given agent. -/
def Event.add_agents (e : Event) (agents : List Agent) : Event :=
  { e with agent_ids := e.agent_ids ++ agents.map Agent.id }

/-- An observable side effect of `AgentContext.handle_event`: a call
`handler.handle(event)` on one registered handler, or an append of the
event to the flow's event log (`self.flow.add_events([event])`). -/
inductive Effect where
  | handler_call (h : Handler) (e : Event)
  | log_append (e : Event)
deriving DecidableEq, Repr

/-- `AgentContext.handle_event(event, persist=None)`: resolve the persist
decision (caller's flag if given, else the event's own preference), stamp
the event with the flow's thread id, associate it with the active tasks
and the registered agents, then call every handler in registration order
and, if persisting, append the enriched event to the log.  Returns the
enriched event and the ordered trace of side effects. -/
def AgentContext.handle_event (c : AgentContext) (event : Event)
    (persist : Option Bool) : Event × List Effect :=
  let persist := persist.getD event.persist
  let event := { event with thread_id := some c.flow.thread_id }
  let event := event.add_tasks c.tasks
  let event := event.add_agents c.agents
  (event,
    (c.handlers.map (fun h => Effect.handler_call h event)) ++
      (if persist then [Effect.log_append event] else []))

/-- The external template renderings consumed by
`AgentContext.compile_prompt` (`controlflow/orchestration/prompt_templates`
and each agent's `get_prompt`, outside the embedded files): each takes the
context, mirroring `context=self` at the call sites. -/
structure Renderers where
  agent_prompt : Agent → AgentContext → String
  flow_prompt : AgentContext → String
  tasks_template : List Task → AgentContext → String
  tool_template : List Tool → AgentContext → String
  instructions_template : List String → AgentContext → String

/-- `AgentContext.compile_prompt(agent)`: build a local copy of the
participating-agent list with the target agent appended when absent,
render every agent prompt in reversed order, then the flow prompt, the
tasks, tools and instructions templates, drop falsy (empty) renderings and
join with blank lines.  The context is returned unchanged alongside the
prompt (the method assigns only the local `agents` variable, never
`self`). -/
def AgentContext.compile_prompt (R : Renderers) (c : AgentContext)
    (agent : Agent) : String × AgentContext :=
  let agents := c.agents
  let agents := if agent ∈ agents then agents else agents ++ [agent]
  let prompts :=
    (agents.reverse.map (fun a => R.agent_prompt a c)) ++
      [R.flow_prompt c,
       R.tasks_template c.tasks c,
       R.tool_template c.tools c,
       R.instructions_template c.instructions c]
  (String.intercalate "\n\n" (prompts.filter (fun p => p != "")), c)

/-- `provide_agent_context(fn)`: the wrapper checks whether the context
keyword is already among the call's keyword arguments; when it is absent
and an ambient context exists (`get_context()`), the ambient context is
injected, then the wrapped function is called.  The context keyword slot
is `Option (Option AgentContext)`: the outer layer is presence among the
kwargs, the inner layer the passed value (which may itself be None); the
remaining arguments are abstracted as `args`. -/
def provide_agent_context {α β : Type}
    (fn : β → Option (Option AgentContext) → α)
    (ambient : Option AgentContext) (args : β)
    (context_kwarg : Option (Option AgentContext)) : α :=
  match context_kwarg with
  | some v => fn args (some v)
  | none =>
      match ambient with
      | some c => fn args (some (some c))
      | none => fn args none

/-! ### Sample data used by witnesses -/

def agentA : Agent :=
  { id := "a", name := "Alice", description := none, prompt := none, instructions := none }

def agentB : Agent :=
  { id := "b", name := "Bob", description := none, prompt := none, instructions := none }

def task1 : Task := { id := 1 }

/-- A tool-result event owned by `agentA`, associated with task 1. -/
def trEvent (et : Bool) : Event :=
  { event := "tool-result", agent := agentA, tool_result := some { end_turn := et },
    persist := true, thread_id := none, task_ids := [1], agent_ids := [] }

def ctxWith (es : List Event) : AgentContext :=
  { flow := { thread_id := "thread-1", events := es }, tasks := [task1], tools := [],
    agents := [], handlers := [{ id := 7 }], instructions := [] }

def teamAB (iter : Nat) : Team :=
  { name := "Agents", description := none, prompt := none, instructions := none,
    agents := [agentA, agentB], iterations := iter }

/-! ### Round-robin helper lemmas -/

lemma get_agent_of_no_continuation (team : Team) (c : AgentContext)
    (h : team.holds_continuation c = false) :
    team.get_agent c = team.rotate := by
  unfold Team.get_agent
  unfold Team.holds_continuation at h
  cases he : (team.last_agent_event c).head? with
  | none => rfl
  | some e =>
      rw [he] at h
      have h' : e.is_continuation = false := h
      simp [h']

lemma holds_continuation_set_iterations (team : Team) (c : AgentContext) (x : Nat) :
    Team.holds_continuation { team with iterations := x } c
      = team.holds_continuation c := rfl

lemma rotate_calls_spec (c : AgentContext) :
    ∀ (k : Nat) (team : Team), team.holds_continuation c = false →
      (rotate_calls k team c).1
          = (List.range k).map
              (fun i => team.agents.getD ((team.iterations + i) % team.agents.length) default)
        ∧ (rotate_calls k team c).2 = { team with iterations := team.iterations + k } := by
  intro k
  induction k with
  | zero => intro team h; exact ⟨rfl, rfl⟩
  | succ n ih =>
      intro team h
      obtain ⟨nm, ds, pr, ins, ags, it⟩ := team
      have hrot : Team.get_agent ⟨nm, ds, pr, ins, ags, it⟩ c
          = Team.rotate ⟨nm, ds, pr, ins, ags, it⟩ :=
        get_agent_of_no_continuation _ c h
      have h1 : Team.holds_continuation ⟨nm, ds, pr, ins, ags, it + 1⟩ c = false := h
      obtain ⟨ihl, ihr⟩ := ih ⟨nm, ds, pr, ins, ags, it + 1⟩ h1
      constructor
      · show (Team.get_agent ⟨nm, ds, pr, ins, ags, it⟩ c).1
            :: (rotate_calls n (Team.get_agent ⟨nm, ds, pr, ins, ags, it⟩ c).2 c).1 = _
        rw [hrot]
        show ags.getD (it % ags.length) default
            :: (rotate_calls n ⟨nm, ds, pr, ins, ags, it + 1⟩ c).1 = _
        rw [ihl, List.range_succ_eq_map, List.map_cons, List.map_map]
        simp only [Function.comp]
        congr 1
        apply List.map_congr_left
        intro i hi
        have : it + 1 + i = it + (i + 1) := by omega
        rw [this]
        rfl
      · show (rotate_calls n (Team.get_agent ⟨nm, ds, pr, ins, ags, it⟩ c).2 c).2 = _
        rw [hrot]
        show (rotate_calls n ⟨nm, ds, pr, ins, ags, it + 1⟩ c).2 = _
        rw [ihr]
        have : it + 1 + n = it + (n + 1) := by omega
        rw [this]

lemma range_map_getD_eq_rotate (l : List Agent) (c : Nat) (h : l ≠ []) :
    (List.range l.length).map (fun i => l.getD ((c + i) % l.length) default)
      = l.rotate (c % l.length) := by
  have hlen : 0 < l.length := List.length_pos.mpr h
  apply List.ext_getElem
  · simp
  · intro i h1 h2
    simp only [List.getElem_map, List.getElem_range]
    rw [List.getElem_rotate]
    have hm : (c + i) % l.length < l.length := Nat.mod_lt _ hlen
    rw [List.getD_eq_getElem l default hm]
    congr 1
    rw [Nat.add_comm i (c % l.length), Nat.mod_add_mod]

/-! ### Claims about `Team.get_agent` -/

/-- Claim C1: if the most recent relevant event for the team exists, is a
tool-result, and its `end_turn` flag is false, then `Team.get_agent`
returns the agent that produced that event and leaves the team (in
particular its turn counter) unchanged. -/
theorem team_continuation_same_agent (team : Team) (c : AgentContext) (e : Event)
    (h1 : (team.last_agent_event c).head? = some e)
    (h2 : e.event = "tool-result")
    (h3 : e.tool_result = some { end_turn := false }) :
    (team.get_agent c).1 = e.agent
      ∧ (team.get_agent c).2 = team
      ∧ (team.get_agent c).2.iterations = team.iterations := by
  have hc : e.is_continuation = true := by
    simp [Event.is_continuation, h2, h3]
  unfold Team.get_agent
  rw [h1]
  simp [hc]

theorem team_continuation_same_agent_witness :
    ((teamAB 5).last_agent_event (ctxWith [trEvent false])).head? = some (trEvent false)
      ∧ ((teamAB 5).get_agent (ctxWith [trEvent false])).1 = (trEvent false).agent
      ∧ ((teamAB 5).get_agent (ctxWith [trEvent false])).2.iterations = 5 :=
  ⟨by decide,
   (team_continuation_same_agent (teamAB 5) (ctxWith [trEvent false]) (trEvent false)
      (by decide) (by decide) (by decide)).1,
   (team_continuation_same_agent (teamAB 5) (ctxWith [trEvent false]) (trEvent false)
      (by decide) (by decide) (by decide)).2.2⟩

/-- Claim C2: when the continuation condition does not hold, a call to
`Team.get_agent` on a team with non-empty member list M and counter c
returns M[c mod len M] and advances the counter to c + 1; len M
consecutive such calls produce exactly the rotation of M by c mod len M,
hence visit every member exactly once, in list order, cyclically. -/
theorem team_round_robin (team : Team) (c : AgentContext)
    (h1 : team.agents ≠ []) (h2 : team.holds_continuation c = false) :
    (team.get_agent c).1 = team.agents.getD (team.iterations % team.agents.length) default
      ∧ (team.get_agent c).2.iterations = team.iterations + 1
      ∧ (rotate_calls team.agents.length team c).1
          = team.agents.rotate (team.iterations % team.agents.length)
      ∧ (rotate_calls team.agents.length team c).1.Perm team.agents := by
  have hrot : team.get_agent c = team.rotate := get_agent_of_no_continuation team c h2
  have hlist : (rotate_calls team.agents.length team c).1
      = team.agents.rotate (team.iterations % team.agents.length) := by
    rw [(rotate_calls_spec c team.agents.length team h2).1]
    exact range_map_getD_eq_rotate team.agents team.iterations h1
  refine ⟨by rw [hrot]; rfl, by rw [hrot]; rfl, hlist, ?_⟩
  rw [hlist]
  exact List.rotate_perm team.agents (team.iterations % team.agents.length)

theorem team_round_robin_witness :
    (rotate_calls (teamAB 3).agents.length (teamAB 3) (ctxWith [])).1
        = (teamAB 3).agents.rotate ((teamAB 3).iterations % (teamAB 3).agents.length)
      ∧ (rotate_calls (teamAB 3).agents.length (teamAB 3) (ctxWith [])).1.Perm
          (teamAB 3).agents :=
  ⟨(team_round_robin (teamAB 3) (ctxWith []) (by decide) (by decide)).2.2.1,
   (team_round_robin (teamAB 3) (ctxWith []) (by decide) (by decide)).2.2.2⟩

/-- Claim C3: if the most recent relevant event is a tool-result with
`end_turn` true, or an agent-message, or no relevant event exists, then
`Team.get_agent` rotates: it returns members[counter mod length] and
increments the counter, rather than short-circuiting on the last event. -/
theorem team_rotation_applies (team : Team) (c : AgentContext)
    (h : (∃ e, (team.last_agent_event c).head? = some e
            ∧ ((e.event = "tool-result" ∧ e.tool_result = some { end_turn := true })
                ∨ e.event = "agent-message"))
         ∨ (team.last_agent_event c).head? = none) :
    team.get_agent c = team.rotate
      ∧ (team.get_agent c).1
          = team.agents.getD (team.iterations % team.agents.length) default
      ∧ (team.get_agent c).2.iterations = team.iterations + 1 := by
  have hrot : team.get_agent c = team.rotate := by
    rcases h with ⟨e, he, hcase⟩ | hnone
    · have hc : e.is_continuation = false := by
        rcases hcase with ⟨hk, ht⟩ | hm
        · simp [Event.is_continuation, hk, ht]
        · simp [Event.is_continuation, hm]
      unfold Team.get_agent
      rw [he]
      simp [hc]
    · unfold Team.get_agent
      rw [hnone]
  exact ⟨hrot, by rw [hrot]; rfl, by rw [hrot]; rfl⟩

theorem team_rotation_applies_witness :
    ((teamAB 0).get_agent (ctxWith [trEvent true])).1 = agentA
      ∧ ((teamAB 0).get_agent (ctxWith [trEvent true])).2.iterations = 1 :=
  ⟨by
    have h := (team_rotation_applies (teamAB 0) (ctxWith [trEvent true])
      (Or.inl ⟨trEvent true, by decide, Or.inl ⟨by decide, by decide⟩⟩)).2.1
    rw [h]; decide,
   (team_rotation_applies (teamAB 0) (ctxWith [trEvent true])
      (Or.inl ⟨trEvent true, by decide, Or.inl ⟨by decide, by decide⟩⟩)).2.2⟩

/-! ### Claims about `AgentContext` -/

lemma count_log_append (hs : List Handler) (e : Event) (b : Bool) :
    ((hs.map (fun h => Effect.handler_call h e)) ++
        (if b then [Effect.log_append e] else [])).count (Effect.log_append e)
      = if b then 1 else 0 := by
  rw [List.count_append]
  have h0 : (hs.map (fun h => Effect.handler_call h e)).count (Effect.log_append e) = 0 := by
    rw [List.count_eq_zero]
    intro hmem
    obtain ⟨x, hx, heq⟩ := List.mem_map.mp hmem
    exact Effect.noConfusion heq
  rw [h0]
  cases b <;> simp

/-- Claim C4: `handle_event` with `persist=None` uses the event's own
persistence preference; it stamps the event with the flow's thread id,
associates it with every active task and every registered agent, forwards
the enriched event to every handler in registration order regardless of
the persist decision, and appends it to the log exactly once exactly when
the decision is true, with all handler calls preceding the log write in
the effect trace. -/
theorem handle_event_contract (c : AgentContext) (event : Event) :
    (c.handle_event event none).1.thread_id = some c.flow.thread_id
      ∧ (∀ t ∈ c.tasks, t.id ∈ (c.handle_event event none).1.task_ids)
      ∧ (∀ a ∈ c.agents, a.id ∈ (c.handle_event event none).1.agent_ids)
      ∧ (c.handle_event event none).2
          = (c.handlers.map (fun h => Effect.handler_call h (c.handle_event event none).1))
              ++ (if event.persist then [Effect.log_append (c.handle_event event none).1]
                  else [])
      ∧ (c.handle_event event none).2.count
            (Effect.log_append (c.handle_event event none).1)
          = (if event.persist then 1 else 0) := by
  refine ⟨rfl, ?_, ?_, rfl, ?_⟩
  · intro t ht
    simp [AgentContext.handle_event, Event.add_tasks, Event.add_agents]
    exact Or.inr ⟨t, ht, rfl⟩
  · intro a ha
    simp [AgentContext.handle_event, Event.add_tasks, Event.add_agents]
    exact Or.inr ⟨a, ha, rfl⟩
  · exact count_log_append c.handlers (c.handle_event event none).1 event.persist

theorem handle_event_contract_witness :
    task1.id ∈ ((ctxWith []).handle_event (trEvent false) none).1.task_ids :=
  (handle_event_contract (ctxWith []) (trEvent false)).2.1 task1 (by decide)

def agentC : Agent :=
  { id := "c", name := "Cleo", description := none, prompt := none, instructions := none }

def ctxAB : AgentContext :=
  { flow := { thread_id := "t", events := [] }, tasks := [], tools := [],
    agents := [agentA, agentB], handlers := [], instructions := [] }

def nameRenderers : Renderers :=
  { agent_prompt := fun a _ => a.name, flow_prompt := fun _ => "flow",
    tasks_template := fun _ _ => "tasks", tool_template := fun _ _ => "tools",
    instructions_template := fun _ _ => "instr" }

/-- Claim C5: `compile_prompt` returns the blank-line-separated join, with
empty renderings dropped, of the target agent's prompt (when the target is
not already registered) followed by the registered agents' prompts in
reverse registration order, then the flow prompt, the task rendering, the
tool rendering and the instructions rendering; with agents registered in
order [P1, P2] and unregistered target agent, the agent-prompt segment
lists the target's prompt, then P2's, then P1's. -/
theorem compile_prompt_reverse_order (R : Renderers) (c : AgentContext) (agent : Agent) :
    (agent ∉ c.agents →
        (AgentContext.compile_prompt R c agent).1
          = String.intercalate "\n\n"
              (((R.agent_prompt agent c :: c.agents.reverse.map (fun a => R.agent_prompt a c))
                  ++ [R.flow_prompt c, R.tasks_template c.tasks c, R.tool_template c.tools c,
                      R.instructions_template c.instructions c]).filter (fun p => p != "")))
      ∧ (agent ∈ c.agents →
          (AgentContext.compile_prompt R c agent).1
            = String.intercalate "\n\n"
                (((c.agents.reverse.map (fun a => R.agent_prompt a c))
                    ++ [R.flow_prompt c, R.tasks_template c.tasks c, R.tool_template c.tools c,
                        R.instructions_template c.instructions c]).filter (fun p => p != "")))
      ∧ (∀ P1 P2, c.agents = [P1, P2] → agent ∉ c.agents →
          ((c.agents ++ [agent]).reverse.map (fun a => R.agent_prompt a c))
            = [R.agent_prompt agent c, R.agent_prompt P2 c, R.agent_prompt P1 c]) := by
  refine ⟨?_, ?_, ?_⟩
  · intro h
    simp only [AgentContext.compile_prompt]
    rw [if_neg h, List.reverse_append]
    rfl
  · intro h
    simp only [AgentContext.compile_prompt]
    rw [if_pos h]
  · intro P1 P2 hc h
    rw [hc]
    rfl

theorem compile_prompt_reverse_order_witness :
    (((ctxAB.agents ++ [agentC]).reverse.map (fun a => nameRenderers.agent_prompt a ctxAB))
        = [nameRenderers.agent_prompt agentC ctxAB, nameRenderers.agent_prompt agentB ctxAB,
           nameRenderers.agent_prompt agentA ctxAB])
      ∧ ((AgentContext.compile_prompt nameRenderers ctxAB agentA).1
          = String.intercalate "\n\n"
              (((ctxAB.agents.reverse.map (fun a => nameRenderers.agent_prompt a ctxAB))
                  ++ [nameRenderers.flow_prompt ctxAB,
                      nameRenderers.tasks_template ctxAB.tasks ctxAB,
                      nameRenderers.tool_template ctxAB.tools ctxAB,
                      nameRenderers.instructions_template ctxAB.instructions ctxAB]).filter
                (fun p => p != ""))) :=
  ⟨(compile_prompt_reverse_order nameRenderers ctxAB agentC).2.2 agentA agentB
      (by decide) (by decide),
   (compile_prompt_reverse_order nameRenderers ctxAB agentA).2.1 (by decide)⟩

/-- Claim C6: constructing a team with an empty member list always raises
the validation error, constructing with at least one member always
succeeds, every constructed team has a non-empty member list, and
`get_agent` on any team with a non-empty member list returns one of its
members. -/
theorem team_nonempty_selection :
    (∀ n d p i, mkTeam n d p i [] = Except.error "A team must have at least one agent.")
      ∧ (∀ n d p i a as, mkTeam n d p i (a :: as)
            = Except.ok { name := n, description := d, prompt := p, instructions := i,
                          agents := a :: as, iterations := 0 })
      ∧ (∀ n d p i ags t, mkTeam n d p i ags = Except.ok t → t.agents ≠ [])
      ∧ (∀ (team : Team) (c : AgentContext), team.agents ≠ []
            → (team.get_agent c).1 ∈ team.agents) := by
  refine ⟨fun n d p i => rfl, fun n d p i a as => rfl, ?_, ?_⟩
  · intro n d p i ags t h
    cases ags with
    | nil => simp [mkTeam, validate_agents] at h
    | cons a as =>
        simp only [mkTeam, validate_agents, List.isEmpty_cons, if_false,
          Bool.false_eq_true, reduceIte, Except.ok.injEq] at h
        rw [← h]
        simp
  · intro team c hne
    have hlen : 0 < team.agents.length := List.length_pos.mpr hne
    have hidx : team.iterations % team.agents.length < team.agents.length :=
      Nat.mod_lt _ hlen
    have hrotmem : (team.rotate).1 ∈ team.agents := by
      show team.agents.getD _ default ∈ team.agents
      rw [List.getD_eq_getElem team.agents default hidx]
      exact List.getElem_mem hidx
    unfold Team.get_agent
    cases he : (team.last_agent_event c).head? with
    | none => exact hrotmem
    | some e =>
        cases hc : e.is_continuation with
        | false => simp only [hc]; exact hrotmem
        | true =>
            simp only [hc, if_true]
            have hmem1 : e ∈ team.last_agent_event c := by
              cases hl : team.last_agent_event c with
              | nil => rw [hl] at he; simp at he
              | cons x xs =>
                  rw [hl] at he
                  simp only [List.head?_cons, Option.some.injEq] at he
                  rw [← he] at *
                  exact List.mem_cons_self x xs
            unfold Team.last_agent_event Flow.get_events at hmem1
            have hmem2 := List.mem_of_mem_take hmem1
            rw [List.mem_reverse] at hmem2
            have hp := (List.mem_filter.mp hmem2).2
            simp only [Bool.and_eq_true, decide_eq_true_eq] at hp
            exact hp.1.1

theorem team_nonempty_selection_witness :
    ((teamAB 0).get_agent (ctxWith [])).1 ∈ (teamAB 0).agents :=
  team_nonempty_selection.2.2.2 (teamAB 0) (ctxWith []) (by decide)

/-- Claim C7: two teams have equal derived identifiers exactly when their
type name (always the same here), name, description, prompt, instructions
and ordered member identity lists agree; hence changing any one of those
fields, or the order of members, changes the identifier. -/
theorem generate_id_characterization (t1 t2 : Team) :
    t1.generate_id = t2.generate_id
      ↔ (t1.name = t2.name ∧ t1.description = t2.description ∧ t1.prompt = t2.prompt
          ∧ t1.instructions = t2.instructions
          ∧ t1.agents.map Agent.id = t2.agents.map Agent.id) := by
  unfold Team.generate_id hash_objects
  simp [HashInput.mk.injEq]

/-- Claim C8: `add_agent` is idempotent: adding the same agent twice
leaves the participant list identical to adding it once, and adding an
agent that is already present is a no-op. -/
theorem add_agent_idempotent (c : AgentContext) (a : Agent) :
    (c.add_agent a).add_agent a = c.add_agent a
      ∧ (a ∈ c.agents → c.add_agent a = c) := by
  constructor
  · by_cases h : a ∈ c.agents
    · simp [AgentContext.add_agent, h]
    · simp [AgentContext.add_agent, h]
  · intro h
    simp [AgentContext.add_agent, h]

theorem add_agent_idempotent_witness :
    ctxAB.add_agent agentA = ctxAB :=
  (add_agent_idempotent ctxAB agentA).2 (by decide)

/-- Claim C9: the `provide_agent_context` wrapper passes an explicitly
supplied context argument through uninjected, injects the ambient context
when the argument is absent and an ambient context exists, and calls the
function with the arguments as given when the argument is absent and no
ambient context exists. -/
theorem provide_agent_context_contract {α β : Type}
    (fn : β → Option (Option AgentContext) → α) (args : β) :
    (∀ ambient v, provide_agent_context fn ambient args (some v) = fn args (some v))
      ∧ (∀ c, provide_agent_context fn (some c) args none = fn args (some (some c)))
      ∧ provide_agent_context fn none args none = fn args none :=
  ⟨fun ambient v => rfl, fun c => rfl, rfl⟩

/-- Claim C10: `compile_prompt` never mutates the context: the context
coming out of the call is the one that went in, field for field — the
target agent is appended only to a local copy of the agent list. -/
theorem compile_prompt_leaves_context_unchanged (R : Renderers) (c : AgentContext)
    (agent : Agent) :
    (AgentContext.compile_prompt R c agent).2 = c
      ∧ (AgentContext.compile_prompt R c agent).2.agents = c.agents
      ∧ (AgentContext.compile_prompt R c agent).2.tasks = c.tasks
      ∧ (AgentContext.compile_prompt R c agent).2.tools = c.tools
      ∧ (AgentContext.compile_prompt R c agent).2.handlers = c.handlers
      ∧ (AgentContext.compile_prompt R c agent).2.instructions = c.instructions :=
  ⟨rfl, rfl, rfl, rfl, rfl, rfl⟩

end CF
